import Mathlib

/-!
Verification development for the N-Queens benchmark pipeline
(`benchmark.py` and `visualize.py`).

The Python code is shallowly embedded:

* Python strings are `String` / `List Char`; the handful of string
  operations the code uses (`split`, `strip`, `lower`, `replace`,
  substring containment `in`, `count`) are re-implemented below with
  structural recursion, mirroring CPython semantics on the inputs the
  program produces.
* Python `float` values (elapsed times, parsed statistics) are modelled
  as exact rationals `ℚ`; binary floating-point rounding is not modelled,
  every arithmetic fact used below is insensitive to it.
* `subprocess.run` is abstracted by a `SubprocEvent`: either the process
  completed (with exit code, captured stdout/stderr text and the
  runner-measured elapsed wall time), or `subprocess.TimeoutExpired`
  was raised, or some other exception occurred.  The body of
  `run_minizinc` after the `subprocess.run` call is embedded verbatim.
* CSV rows are embedded as a structure `Row`; an empty optional CSV cell
  (falsy string in Python) is `none`, a non-empty numeric cell is `some`
  of its value.
-/

namespace NQ

/-! ## Python string primitives -/

/-- Lower-case one ASCII character, as `str.lower` does on the ASCII
statistics text this program handles. -/
def lowerChar (c : Char) : Char :=
  if 65 ≤ c.toNat ∧ c.toNat ≤ 90 then Char.ofNat (c.toNat + 32) else c

/-- Lower-case a list of characters (`str.lower`). -/
def lowerL (l : List Char) : List Char := l.map lowerChar

/-- Boolean list-prefix test. -/
def prefixOfB : List Char → List Char → Bool
  | [], _ => true
  | _ :: _, [] => false
  | a :: t, b :: u => decide (a = b) && prefixOfB t u

/-- Substring containment, Python's `pat in s` over character lists. -/
def containsB (p : List Char) : List Char → Bool
  | [] => p.isEmpty
  | a :: t => prefixOfB p (a :: t) || containsB p t

/-- Substring containment on strings (`pat in s`). -/
def strContains (s pat : String) : Bool := containsB pat.toList s.toList

/-- Fuel-driven worker for `pyCount`; starting it with `fuel = l.length`
computes Python's non-overlapping, left-to-right `str.count`. -/
def countFrom (p : List Char) : Nat → List Char → Nat
  | _, [] => 0
  | 0, _ :: _ => 0
  | fuel + 1, a :: t =>
    if prefixOfB p (a :: t) && !p.isEmpty then
      countFrom p fuel (t.drop (p.length - 1)) + 1
    else
      countFrom p fuel t

/-- Python `s.count(pat)` for a non-empty pattern. -/
def pyCount (s pat : String) : Nat :=
  countFrom pat.toList s.toList.length s.toList

/-- Fuel-driven worker for `pyReplaceEmpty`. -/
def removeFrom (p : List Char) : Nat → List Char → List Char
  | _, [] => []
  | 0, l => l
  | fuel + 1, a :: t =>
    if prefixOfB p (a :: t) && !p.isEmpty then
      removeFrom p fuel (t.drop (p.length - 1))
    else
      a :: removeFrom p fuel t

/-- Python `s.replace(pat, '')`: delete all non-overlapping occurrences
of `pat`, scanning left to right. -/
def pyReplaceEmpty (l p : List Char) : List Char :=
  removeFrom p l.length l

/-- Python `s.split(c)` for a one-character separator. -/
def splitOnChar (c : Char) : List Char → List (List Char)
  | [] => [[]]
  | a :: t =>
    match splitOnChar c t with
    | [] => [[a]]
    | h :: r => if a = c then [] :: h :: r else (a :: h) :: r

/-- Characters removed by Python `str.strip()` with no argument. -/
def isPyWS (c : Char) : Bool :=
  c == ' ' || c == '\t' || c == '\n' || c == '\r' || c == '\x0b' || c == '\x0c'

/-- Python `s.strip()`. -/
def pyStrip (l : List Char) : List Char :=
  ((l.dropWhile isPyWS).reverse.dropWhile isPyWS).reverse

/-- Decimal digit test. -/
def isDigitC (c : Char) : Bool := decide (48 ≤ c.toNat) && decide (c.toNat ≤ 57)

/-- Value of a digit string, most significant digit first. -/
def digitsVal (l : List Char) : Nat :=
  l.foldl (fun n c => n * 10 + (c.toNat - 48)) 0

/-- Check for a non-empty, all-digit character list. -/
def digitsOnly (l : List Char) : Bool := !l.isEmpty && l.all isDigitC

/-- Python `int(s)` on an already stripped string: optional sign then
decimal digits.  Underscore digit grouping and non-ASCII digits are not
modelled (the solver output never contains them). -/
def pyIntCore : List Char → Option Int
  | '-' :: rest => if digitsOnly rest then some (-(digitsVal rest : Int)) else none
  | '+' :: rest => if digitsOnly rest then some (digitsVal rest) else none
  | l => if digitsOnly l then some (digitsVal l) else none

/-- Python `int(s)` (which itself tolerates surrounding whitespace). -/
def pyInt (s : List Char) : Option Int := pyIntCore (pyStrip s)

/-- Value of a parsed decimal literal: mantissa digits `m`, `scale`
fractional digits, decimal exponent `e`. -/
def qVal (m scale : Nat) (e : Int) : ℚ :=
  let b : ℚ := (m : ℚ) / (10 : ℚ) ^ scale
  if 0 ≤ e then b * (10 : ℚ) ^ e.toNat else b / (10 : ℚ) ^ (-e).toNat

/-- Parse the exponent tail of a Python float literal: either empty or
`e`/`E`, an optional sign and a non-empty digit string. -/
def expVal : List Char → Option Int
  | [] => some 0
  | c :: rest =>
    if c = 'e' ∨ c = 'E' then
      match rest with
      | '-' :: ds => if digitsOnly ds then some (-(digitsVal ds : Int)) else none
      | '+' :: ds => if digitsOnly ds then some (digitsVal ds) else none
      | ds => if digitsOnly ds then some (digitsVal ds) else none
    else none

/-- Parse the unsigned part of a Python float literal: digits, an
optional point with further digits (at least one digit overall), and an
optional exponent. -/
def pyFloatMag (l : List Char) : Option ℚ :=
  let ip := l.takeWhile isDigitC
  let r1 := l.dropWhile isDigitC
  match r1 with
  | '.' :: r2 =>
    let fp := r2.takeWhile isDigitC
    let r3 := r2.dropWhile isDigitC
    if ip.isEmpty && fp.isEmpty then none
    else
      match expVal r3 with
      | some e => some (qVal (digitsVal (ip ++ fp)) fp.length e)
      | none => none
  | r =>
    if ip.isEmpty then none
    else
      match expVal r with
      | some e => some (qVal (digitsVal ip) 0 e)
      | none => none

/-- Python `float(s)` on decimal notation, as an exact rational.
`inf` and `nan` literals are not modelled (the solver's statistics lines
never contain them). -/
def pyFloat (s : List Char) : Option ℚ :=
  match pyStrip s with
  | '-' :: rest => (pyFloatMag rest).map (fun q => -q)
  | '+' :: rest => pyFloatMag rest
  | l => pyFloatMag l

/-! ## Embedding of `run_minizinc` (`benchmark.py`, lines 43-131) -/

/-- Classification outcome strings used by `run_minizinc`. -/
inductive Status
  | SAT
  | UNSAT
  | TIMEOUT
  | ERROR
  | UNKNOWN
deriving DecidableEq

/-- The `stats` dictionary built by `run_minizinc`. -/
structure Stats where
  status : Status
  time : Option ℚ
  nodes : Option Int
  failures : Option Int
  propagations : Option Int
  solutions : Nat
deriving DecidableEq

/-- Configured per-run timeout, seconds (`TIMEOUT = 300`). -/
def TIMEOUT : ℚ := 300

/-- Initial `stats` dictionary (status UNKNOWN, time the runner-measured
elapsed seconds, optional statistics absent, zero solutions). -/
def initStats (elapsed : ℚ) : Stats :=
  { status := Status.UNKNOWN, time := some elapsed, nodes := none,
    failures := none, propagations := none, solutions := 0 }

/-- Token after the first `=` of a line, parsed as a Python `int` after
stripping: `int(line.split('=')[1].strip())`.  `none` covers both the
`IndexError` on a line without `=` and an unparsable token (either lands
in the bare `except`). -/
def intTok (line : List Char) : Option Int :=
  match (splitOnChar '=' line)[1]? with
  | some s => pyInt (pyStrip s)
  | none => none

/-- Token after the first `=` of a line, stripped, with every `ms`
removed, parsed as a Python `float`:
`float(line.split('=')[1].strip().replace('ms', ''))`. -/
def timeTok (line : List Char) : Option ℚ :=
  match (splitOnChar '=' line)[1]? with
  | some s => pyFloat (pyReplaceEmpty (pyStrip s) ['m', 's'])
  | none => none

/-- One iteration of the statistics scan in `run_minizinc`
(lines 78-98): the `if/elif` chain over one output line.  A failed parse
leaves the dictionary unchanged (the bare `except: pass`). -/
def processLine (st : Stats) (line : List Char) : Stats :=
  if containsB ['n', 'o', 'd', 'e', 's'] (lowerL line) = true then
    match intTok line with
    | some v => { st with nodes := some v }
    | none => st
  else if containsB "failures".toList (lowerL line) = true ∨
      containsB "fails".toList (lowerL line) = true then
    match intTok line with
    | some v => { st with failures := some v }
    | none => st
  else if containsB "propagations".toList (lowerL line) = true ∨
      containsB "propagates".toList (lowerL line) = true then
    match intTok line with
    | some v => { st with propagations := some v }
    | none => st
  else if containsB "solveTime".toList line = true then
    match timeTok line with
    | some v => { st with time := some v }
    | none => st
  else st

/-- The statistics scan of `run_minizinc`: fold the line scan over
`result.stdout.split('\n')` starting from the initial dictionary. -/
def scanStats (stdout : List Char) (elapsed : ℚ) : Stats :=
  (splitOnChar '\n' stdout).foldl processLine (initStats elapsed)

/-- Raw result of a completed `subprocess.run` call. -/
structure RunResult where
  returncode : Int
  stdout : String
  stderr : String
deriving DecidableEq

/-- Status classification of `run_minizinc` (lines 100-109), applied to
the scanned statistics dictionary. -/
def classify (res : RunResult) (elapsed timeout : ℚ) (st : Stats) : Stats :=
  if res.returncode = 0 ∧ strContains res.stdout "Q = " = true then
    { st with status := Status.SAT, solutions := pyCount res.stdout "Q = " }
  else if res.returncode = 0 then
    { st with status := Status.UNSAT }
  else if strContains res.stderr "TIMEOUT" = true ∨ elapsed ≥ timeout - 1 then
    { st with status := Status.TIMEOUT }
  else
    { st with status := Status.ERROR }

/-- How the `subprocess.run` call inside `run_minizinc` resolved. -/
inductive SubprocEvent
  | completed (res : RunResult) (elapsed : ℚ)
  | timeoutExpired
  | exception
deriving DecidableEq

/-- The whole of `run_minizinc` after the command is issued: the normal
path scans statistics and classifies; `subprocess.TimeoutExpired` yields
a TIMEOUT record with `time = timeout`; any other exception yields an
ERROR record with no time. -/
def run_minizinc (ev : SubprocEvent) (timeout : ℚ) : Stats :=
  match ev with
  | SubprocEvent.completed res elapsed =>
    classify res elapsed timeout (scanStats res.stdout.toList elapsed)
  | SubprocEvent.timeoutExpired =>
    { status := Status.TIMEOUT, time := some timeout, nodes := none,
      failures := none, propagations := none, solutions := 0 }
  | SubprocEvent.exception =>
    { status := Status.ERROR, time := none, nodes := none,
      failures := none, propagations := none, solutions := 0 }

/-! ## Embedding of the result rows and the summary reductions -/

/-- One CSV result row as the summary code reads it back.  `Status` is
the literal status string; `time` models `row['Time(s)']` (`none` for
the empty cell, which is falsy in Python, `some q` for a non-empty
numeric cell of value `q`); `nodes` models `row['Nodes']` likewise. -/
structure Row where
  model : String
  description : String
  n : Nat
  status : String
  time : Option ℚ
  nodes : Option Int
deriving DecidableEq

/-- The model catalog `MODELS` of `benchmark.py`. -/
def MODELS : List (String × String) :=
  [("01_naive.mzn", "Naïf (contraintes binaires)"),
   ("02_global.mzn", "Contraintes globales"),
   ("03_ff_min.mzn", "First-Fail + Min"),
   ("04_ff_max.mzn", "First-Fail + Max"),
   ("05_ff_split.mzn", "First-Fail + Split"),
   ("06_input_order.mzn", "Input Order"),
   ("07_smallest.mzn", "Smallest"),
   ("08_dom_w_deg.mzn", "Dom/Wdeg"),
   ("09_symmetry_basic.mzn", "Symétrie basique"),
   ("10_symmetry_advanced.mzn", "Symétrie avancée"),
   ("11_redundant.mzn", "Contraintes redondantes"),
   ("12_bounds.mzn", "Propagation bounds"),
   ("13_random.mzn", "Random"),
   ("14_combined_optimal.mzn", "Combiné optimal"),
   ("15_max_regret.mzn", "Max Regret")]

/-- The size list `N_VALUES` of `benchmark.py`. -/
def N_VALUES : List Nat := [8, 10, 12, 15, 20, 25, 30, 40, 50]

/-- Sort key used on a filtered row: `float(x['Time(s)'])` (the filters
below guarantee the cell is present). -/
def timeKey (r : Row) : ℚ := r.time.getD 0

/-- One comparison step of Python `min(l, key=k)`: the running best is
replaced only when the next element's key is strictly smaller. -/
def minStep (k : Row → ℚ) (best x : Row) : Row :=
  if k x < k best then x else best

/-- Python `min(l, key=k)` for a non-empty list: the first element
attaining the minimum key wins, because later elements replace the
current best only when strictly smaller. -/
def pyMinBy (k : Row → ℚ) : List Row → Option Row
  | [] => none
  | a :: t => some (t.foldl (minStep k) a)

/-- Rows eligible for best-per-size selection at size `n`:
`status = SAT` and a non-empty time cell (`generate_summary` line 239,
`plot_best_per_size` line 102, `generate_summary_table` line 225). -/
def satTimeRows (rows : List Row) (n : Nat) : List Row :=
  rows.filter (fun r => r.n == n && r.status == "SAT" && r.time.isSome)

/-- Best-per-size selection shared by `generate_summary`,
`plot_best_per_size` and `generate_summary_table`:
`min(n_rows, key=lambda x: float(x['Time(s)']))`, or nothing when the
filtered subset is empty ("Aucune solution trouvée" / 'Aucun'). -/
def bestForSize (rows : List Row) (n : Nat) : Option Row :=
  pyMinBy timeKey (satTimeRows rows n)

/-- Distinct problem sizes present in the records, ascending:
`sorted(set(int(r['N']) for r in results))` in `plot_best_per_size` and
`generate_summary_table`. -/
def nPresent (rows : List Row) : List Nat :=
  List.insertionSort (· ≤ ·) ((rows.map (fun r => r.n)).dedup)

/-- Labels of `plot_best_per_size`: per present size, the truncated
description of the best record, or 'Aucun' when no Sat record exists. -/
def bestLabels (rows : List Row) : List String :=
  (nPresent rows).map (fun n =>
    match bestForSize rows n with
    | some b => String.mk (b.description.toList.take 20)
    | none => "Aucun")

/-- Arithmetic mean of a list of rationals (`sum(...) / len(...)`,
`np.mean`). -/
def meanQ (l : List ℚ) : ℚ := l.sum / (l.length : ℚ)

/-- Arithmetic mean of a list of integers, as a rational (`np.mean`). -/
def meanZ (l : List Int) : ℚ := ((l.sum : ℚ)) / (l.length : ℚ)

/-- Per-model summary of `generate_summary` (`benchmark.py` lines
252-259): for each catalog model, the rows with that model file, status
SAT and a non-empty time; a model enters `model_stats` only when this
subset is non-empty.  Entry: description, mean time, solved, total. -/
def benchModelStats (rows : List Row) : List (String × ℚ × Nat × Nat) :=
  MODELS.filterMap (fun md =>
    let mrows := rows.filter
      (fun r => r.model == md.1 && r.status == "SAT" && r.time.isSome)
    if mrows.isEmpty then none
    else
      some (md.2, meanQ (mrows.map timeKey), mrows.length,
        (rows.filter (fun r => r.model == md.1)).length))

/-- The display order of `generate_summary` (line 262): ascending sort
by mean time.  Python's `sorted` is stable; so is insertion sort with a
total `≤` key comparison, so the two agree. -/
def benchSummary (rows : List Row) : List (String × ℚ × Nat × Nat) :=
  List.insertionSort (fun p q => p.2.1 ≤ q.2.1) (benchModelStats rows)

/-- Accumulator of `generate_summary_table` (`visualize.py`): the
per-model `times`/`nodes` lists and `total`/`solved` counters. -/
structure MAgg where
  times : List ℚ
  nodesAcc : List Int
  total : Nat
  solved : Nat
deriving DecidableEq

/-- Fresh accumulator. -/
def emptyAgg : MAgg := ⟨[], [], 0, 0⟩

/-- Update of one model's accumulator by one row
(`generate_summary_table` lines 195-201): always count it; when SAT also
count it solved and append the time and node cells when non-empty. -/
def updAgg (r : Row) (a : MAgg) : MAgg :=
  let a1 := { a with total := a.total + 1 }
  if r.status == "SAT" then
    let a2 := { a1 with solved := a1.solved + 1 }
    let a3 :=
      match r.time with
      | some t => { a2 with times := a2.times ++ [t] }
      | none => a2
    match r.nodes with
    | some v => { a3 with nodesAcc := a3.nodesAcc ++ [v] }
    | none => a3
  else a1

/-- One step of building the `models_data` dict: keys are descriptions
in first-appearance order (Python dict insertion order); a missing key
is appended with a fresh accumulator before the update. -/
def updMD (acc : List (String × MAgg)) (r : Row) : List (String × MAgg) :=
  if ∃ p ∈ acc, p.1 = r.description then
    acc.map (fun p => if p.1 = r.description then (p.1, updAgg r p.2) else p)
  else acc ++ [(r.description, updAgg r emptyAgg)]

/-- The `models_data` dict of `generate_summary_table` after the row
loop. -/
def modelsData (rows : List Row) : List (String × MAgg) :=
  rows.foldl updMD []

/-- Reference aggregation for one description, folded directly over the
rows; the fold-with-dict `modelsData` is proved to agree with it. -/
def aggFor (desc : String) (rows : List Row) : MAgg :=
  rows.foldl (fun a r => if r.description = desc then updAgg r a else a) emptyAgg

/-- Sort order of `generate_summary_table` (line 204): ascending mean of
the collected times, an empty `times` list counting as infinity. -/
def tableLe (p q : String × MAgg) : Prop :=
  if p.2.times.isEmpty then q.2.times.isEmpty = true
  else if q.2.times.isEmpty then True
  else meanQ p.2.times ≤ meanQ q.2.times

instance : DecidableRel tableLe := fun p q => by
  unfold tableLe; infer_instance

/-- One printed line of the per-model table of `generate_summary_table`
(lines 207-213): description, mean time (0 when no time was collected),
mean nodes (0 likewise), solved and total counts, and the success rate
`100 * solved / total`. -/
structure SummaryEntry where
  desc : String
  avgTime : ℚ
  avgNodes : ℚ
  solved : Nat
  total : Nat
  rate : ℚ
deriving DecidableEq

/-- Rendering of one `models_data` entry as a summary line. -/
def mkEntry (p : String × MAgg) : SummaryEntry :=
  { desc := p.1,
    avgTime := if p.2.times.isEmpty then 0 else meanQ p.2.times,
    avgNodes := if p.2.nodesAcc.isEmpty then 0 else meanZ p.2.nodesAcc,
    solved := p.2.solved,
    total := p.2.total,
    rate := 100 * (p.2.solved : ℚ) / (p.2.total : ℚ) }

/-- The per-model summary table of `generate_summary_table`, in display
order. -/
def summaryTable (rows : List Row) : List SummaryEntry :=
  (List.insertionSort tableLe (modelsData rows)).map mkEntry

/-! ## Embedding of the batch loop of `main` (`benchmark.py` 169-213) -/

/-- One persisted record: the run spec plus the stats `run_minizinc`
returned for it. -/
structure Record where
  model : String
  description : String
  n : Nat
  stats : Stats
deriving DecidableEq

/-- All run specs, in batch order: the catalog crossed with the size
list. -/
def allSpecs (ms : List (String × String)) (ns : List Nat) :
    List ((String × String) × Nat) :=
  ms.flatMap (fun md => ns.map (fun n => (md, n)))

/-- The records `main` writes to the CSV, given which model files and
data files exist and what `run_minizinc` returns for each run: a missing
model file skips all sizes of that model (`continue`), a missing data
file skips the single run (`continue`), every remaining run produces
exactly one row. -/
def mainRecords (ms : List (String × String)) (ns : List Nat)
    (modelExists : String → Bool) (dataExists : Nat → Bool)
    (runner : String → Nat → Stats) : List Record :=
  (ms.filter (fun md => modelExists md.1)).flatMap (fun md =>
    (ns.filter dataExists).map (fun n => ⟨md.1, md.2, n, runner md.1 n⟩))

/-- Number of run specs skipped for missing inputs. -/
def skippedCount (ms : List (String × String)) (ns : List Nat)
    (modelExists : String → Bool) (dataExists : Nat → Bool) : Nat :=
  (allSpecs ms ns).countP (fun p => !(modelExists p.1.1 && dataExists p.2))

/-! ## Lemmas about the primitives -/

/-- Python `s.count(pat) > 0` agrees with `pat in s` (non-empty `pat`). -/
lemma countFrom_pos_iff (p : List Char) (hp : p.isEmpty = false) :
    ∀ (fuel : Nat) (l : List Char), l.length ≤ fuel →
      (0 < countFrom p fuel l ↔ containsB p l = true) := by
  intro fuel
  induction fuel with
  | zero =>
    intro l hl
    have hnil : l = [] := List.eq_nil_of_length_eq_zero (Nat.le_zero.mp hl)
    subst hnil
    simp [countFrom, containsB, hp]
  | succ f ih =>
    intro l hl
    cases l with
    | nil => simp [countFrom, containsB, hp]
    | cons a t =>
      have ht : t.length ≤ f := by
        simpa [List.length_cons, Nat.succ_le_succ_iff] using hl
      by_cases h : prefixOfB p (a :: t) = true
      · simp [countFrom, containsB, h, hp]
      · have h' : prefixOfB p (a :: t) = false := by
          simpa using h
        simpa [countFrom, containsB, h', hp] using ih t ht

/-- String-level form of `countFrom_pos_iff`. -/
lemma pyCount_pos_iff (s pat : String) (hp : pat.toList.isEmpty = false) :
    0 < pyCount s pat ↔ strContains s pat = true :=
  countFrom_pos_iff pat.toList hp s.toList.length s.toList le_rfl

/-! ## Frame lemmas for the statistics scan -/

/-- The line scan never touches the solution counter. -/
lemma processLine_solutions (st : Stats) (line : List Char) :
    (processLine st line).solutions = st.solutions := by
  unfold processLine
  split_ifs <;>
    first
      | rfl
      | (cases intTok line <;> rfl)
      | (cases timeTok line <;> rfl)

/-- The line scan never touches the status. -/
lemma processLine_status (st : Stats) (line : List Char) :
    (processLine st line).status = st.status := by
  unfold processLine
  split_ifs <;>
    first
      | rfl
      | (cases intTok line <;> rfl)
      | (cases timeTok line <;> rfl)

/-- A line without the literal substring `solveTime` never changes the
time field. -/
lemma processLine_time (st : Stats) (line : List Char)
    (h : containsB "solveTime".toList line = false) :
    (processLine st line).time = st.time := by
  unfold processLine
  split_ifs with c1 c2 c3 c4
  · cases intTok line <;> rfl
  · cases intTok line <;> rfl
  · cases intTok line <;> rfl
  · rw [h] at c4; cases c4
  · rfl

/-- Folding the line scan preserves the solution counter. -/
lemma foldl_processLine_solutions (lines : List (List Char)) :
    ∀ st : Stats, (lines.foldl processLine st).solutions = st.solutions := by
  induction lines with
  | nil => intro st; rfl
  | cons l t ih =>
    intro st
    rw [List.foldl_cons, ih, processLine_solutions]

/-- Folding the line scan preserves the time field when no line contains
the literal substring `solveTime`. -/
lemma foldl_processLine_time (lines : List (List Char)) :
    ∀ st : Stats, (∀ l ∈ lines, containsB "solveTime".toList l = false) →
      (lines.foldl processLine st).time = st.time := by
  induction lines with
  | nil => intro st _; rfl
  | cons l t ih =>
    intro st h
    rw [List.foldl_cons, ih _ (fun x hx => h x (List.mem_cons_of_mem _ hx)),
      processLine_time st l (h l (List.mem_cons_self _ _))]

/-- The classification step only writes the status and solution fields;
in particular it preserves the time field. -/
lemma classify_time (res : RunResult) (elapsed timeout : ℚ) (st : Stats) :
    (classify res elapsed timeout st).time = st.time := by
  unfold classify
  split_ifs <;> rfl

/-! ## C1: elapsed time versus the child's self-reported solveTime -/

/-- C1 counterexample: on a completed run whose stdout contains the line
`solveTime=0.5`, with a runner-measured elapsed time of 7 seconds, the
returned `time` is the child's self-reported 0.5, not the runner's 7 —
so the claim that `elapsed_time` is always the runner's own wall-clock
measurement and is never replaced by a child-printed timing value is
false. -/
theorem C1_counterexample :
    (run_minizinc (SubprocEvent.completed ⟨0, "solveTime=0.5", ""⟩ 7) 300).time
        = some (1 / 2) ∧ (1 : ℚ) / 2 ≠ 7 := by
  constructor
  · simp +decide [run_minizinc, classify, scanStats, processLine, initStats,
      splitOnChar, timeTok, strContains, containsB, prefixOfB, lowerL, lowerChar,
      pyReplaceEmpty, removeFrom, pyFloat, pyStrip, pyFloatMag, expVal, qVal,
      digitsVal, isDigitC, isPyWS, List.takeWhile, List.dropWhile]
    norm_num
  · norm_num

/-- C1 amended: for a completed run, the returned `time` is the
runner-measured elapsed wall-clock time unless some stdout line contains
the literal substring `solveTime` (in which case the child-reported
value replaces it); on the forced-termination path the recorded time is
the configured timeout constant. -/
theorem C1_amended (res : RunResult) (elapsed timeout : ℚ)
    (h : ∀ l ∈ splitOnChar '\n' res.stdout.toList,
      containsB "solveTime".toList l = false) :
    (run_minizinc (SubprocEvent.completed res elapsed) timeout).time
      = some elapsed := by
  show (classify res elapsed timeout (scanStats res.stdout.toList elapsed)).time
      = some elapsed
  rw [classify_time]
  unfold scanStats
  rw [foldl_processLine_time _ _ h]
  rfl

/-- C1 amended, witness: a concrete completed run with no `solveTime`
line keeps the runner-measured 3 seconds. -/
theorem C1_amended_witness :
    (∀ l ∈ splitOnChar '\n' (("Q = 1" : String)).toList,
        containsB "solveTime".toList l = false) ∧
      (run_minizinc (SubprocEvent.completed ⟨0, "Q = 1", ""⟩ 3) 300).time
        = some 3 :=
  ⟨by decide, C1_amended ⟨0, "Q = 1", ""⟩ 3 300 (by decide)⟩

/-! ## C2: Timeout status versus measured elapsed time -/

/-- C2 counterexample: a completed run with exit code 1, stderr
containing `TIMEOUT` and a measured elapsed time of 1 second (with
timeout 300) is classified Timeout although its recorded elapsed time,
1 second, is far below the 300-second timeout — so the invariant that
every Timeout record has `elapsed_time ≥ T − ε` is false. -/
theorem C2_counterexample :
    (run_minizinc (SubprocEvent.completed ⟨1, "", "TIMEOUT"⟩ 1) 300).status
        = Status.TIMEOUT ∧
      (run_minizinc (SubprocEvent.completed ⟨1, "", "TIMEOUT"⟩ 1) 300).time
        = some 1 ∧
      (1 : ℚ) < 300 - 1 := by
  refine ⟨?_, ?_, by norm_num⟩
  · simp +decide [run_minizinc, classify, scanStats, processLine, initStats,
      splitOnChar, strContains, containsB, prefixOfB, lowerL, lowerChar]
  · simp +decide [run_minizinc, classify, scanStats, processLine, initStats,
      splitOnChar, strContains, containsB, prefixOfB, lowerL, lowerChar]

/-- C2 amended: every Timeout outcome comes either from the runner's
forced termination (and then the recorded time is the configured timeout
`T`), or from a completed run whose stderr contains `TIMEOUT` or whose
runner-measured elapsed time is at least `T − 1`; the recorded
elapsed_time can therefore be far below `T` when the solver printed
`TIMEOUT` on stderr (or when a `solveTime` line overrode the time). -/
theorem C2_amended (ev : SubprocEvent) (timeout : ℚ)
    (h : (run_minizinc ev timeout).status = Status.TIMEOUT) :
    (ev = SubprocEvent.timeoutExpired ∧
        (run_minizinc ev timeout).time = some timeout) ∨
      ∃ res elapsed, ev = SubprocEvent.completed res elapsed ∧
        (strContains res.stderr "TIMEOUT" = true ∨ elapsed ≥ timeout - 1) := by
  cases ev with
  | completed res elapsed =>
    right
    refine ⟨res, elapsed, rfl, ?_⟩
    have h' : (classify res elapsed timeout
        (scanStats res.stdout.toList elapsed)).status = Status.TIMEOUT := h
    unfold classify at h'
    split_ifs at h' with h1 h2 h3
    exact h3
  | timeoutExpired => exact Or.inl ⟨rfl, rfl⟩
  | exception => exact absurd h (by simp [run_minizinc])

/-- C2 amended, witness: the forced-termination path at timeout 5. -/
theorem C2_amended_witness :
    (run_minizinc SubprocEvent.timeoutExpired 5).status = Status.TIMEOUT ∧
      ((SubprocEvent.timeoutExpired = SubprocEvent.timeoutExpired ∧
          (run_minizinc SubprocEvent.timeoutExpired 5).time = some 5) ∨
        ∃ res elapsed,
          SubprocEvent.timeoutExpired = SubprocEvent.completed res elapsed ∧
            (strContains res.stderr "TIMEOUT" = true ∨ elapsed ≥ 5 - 1)) :=
  ⟨rfl, C2_amended SubprocEvent.timeoutExpired 5 rfl⟩

/-! ## C3: exit code 0 classified by the solution marker -/

/-- C3: on a completed run with exit code 0, the status is Sat exactly
when the captured stdout contains at least one `Q = ` marker; on Sat the
solution count is the number of marker occurrences, and with no marker
the status is Unsat. -/
theorem C3_sat_iff_marker (res : RunResult) (elapsed timeout : ℚ)
    (h0 : res.returncode = 0) :
    ((run_minizinc (SubprocEvent.completed res elapsed) timeout).status
          = Status.SAT ↔ 1 ≤ pyCount res.stdout "Q = ") ∧
      ((run_minizinc (SubprocEvent.completed res elapsed) timeout).status
          = Status.SAT →
        (run_minizinc (SubprocEvent.completed res elapsed) timeout).solutions
          = pyCount res.stdout "Q = ") ∧
      (pyCount res.stdout "Q = " = 0 →
        (run_minizinc (SubprocEvent.completed res elapsed) timeout).status
          = Status.UNSAT) := by
  have hpat : (("Q = " : String)).toList.isEmpty = false := by decide
  cases hc : strContains res.stdout "Q = " with
  | true =>
    have hpos : 0 < pyCount res.stdout "Q = " :=
      (pyCount_pos_iff res.stdout "Q = " hpat).mpr hc
    refine ⟨?_, ?_, ?_⟩
    · simpa [run_minizinc, classify, h0, hc] using hpos
    · intro _
      simp [run_minizinc, classify, h0, hc]
    · intro hz
      exact absurd hz (by omega)
  | false =>
    have hz : ¬ 0 < pyCount res.stdout "Q = " := fun hpos =>
      by simp [(pyCount_pos_iff res.stdout "Q = " hpat).mp hpos] at hc
    refine ⟨?_, ?_, ?_⟩
    · simp [run_minizinc, classify, h0, hc]
      omega
    · intro hsat
      exact absurd hsat (by simp [run_minizinc, classify, h0, hc])
    · intro _
      simp [run_minizinc, classify, h0, hc]

/-- C3 witness: exit code 0 with two markers gives Sat with 2 solutions
counted. -/
theorem C3_sat_iff_marker_witness :
    (1 ≤ pyCount "Q = 1;Q = 2" "Q = " ∧
        (run_minizinc
          (SubprocEvent.completed ⟨0, "Q = 1;Q = 2", ""⟩ 3) 300).status
          = Status.SAT) ∧
      (run_minizinc (SubprocEvent.completed ⟨0, "Q = 1;Q = 2", ""⟩ 3) 300).solutions
        = pyCount "Q = 1;Q = 2" "Q = " :=
  ⟨⟨by decide,
      (C3_sat_iff_marker ⟨0, "Q = 1;Q = 2", ""⟩ 3 300 rfl).1.mpr (by decide)⟩,
    (C3_sat_iff_marker ⟨0, "Q = 1;Q = 2", ""⟩ 3 300 rfl).2.1
      ((C3_sat_iff_marker ⟨0, "Q = 1;Q = 2", ""⟩ 3 300 rfl).1.mpr (by decide))⟩

/-! ## C7: malformed statistic tokens are field-local no-ops -/

/-- C7: when a line matches a statistic key but its token does not
parse (for whichever branch the `if/elif` chain takes), the line scan
leaves the statistics unchanged — the field stays absent, is never set
to zero, and scanning simply continues with the remaining lines. -/
theorem C7_malformed_token_skipped (st : Stats)
    (ls1 ls2 : List (List Char)) (line : List Char)
    (h1 : containsB "nodes".toList (lowerL line) = true → intTok line = none)
    (h2 : containsB "failures".toList (lowerL line) = true ∨
        containsB "fails".toList (lowerL line) = true → intTok line = none)
    (h3 : containsB "propagations".toList (lowerL line) = true ∨
        containsB "propagates".toList (lowerL line) = true → intTok line = none)
    (h4 : containsB "solveTime".toList line = true → timeTok line = none) :
    processLine st line = st ∧
      (ls1 ++ line :: ls2).foldl processLine st
        = (ls1 ++ ls2).foldl processLine st := by
  have hid : ∀ s : Stats, processLine s line = s := by
    intro s
    unfold processLine
    split_ifs with c1 c2 c3 c4
    · rw [h1 c1]
    · rw [h2 c2]
    · rw [h3 c3]
    · rw [h4 c4]
    · rfl
  refine ⟨hid st, ?_⟩
  rw [List.foldl_append, List.foldl_append, List.foldl_cons, hid]

/-- C7 witness: the malformed line `nodes = abc` inside a scan is a
no-op and the scan of the surrounding lines is unaffected. -/
theorem C7_malformed_token_skipped_witness :
    intTok ("nodes = abc" : String).toList = none ∧
      (processLine (initStats 2) ("nodes = abc" : String).toList = initStats 2 ∧
        ([("solveTime=9" : String).toList] ++
            ("nodes = abc" : String).toList :: [("failures=30" : String).toList]).foldl
            processLine (initStats 2)
          = ([("solveTime=9" : String).toList] ++
              [("failures=30" : String).toList]).foldl processLine (initStats 2)) :=
  ⟨by decide,
    C7_malformed_token_skipped (initStats 2) [("solveTime=9" : String).toList]
      [("failures=30" : String).toList] ("nodes = abc" : String).toList
      (fun _ => by decide) (fun h => absurd h (by decide))
      (fun h => absurd h (by decide)) (fun h => absurd h (by decide))⟩

/-! ## C8: solution-count invariant on every return path -/

/-- C8: on every return path of `run_minizinc`, a Sat outcome carries at
least one counted solution and an Unsat, Timeout or Error outcome
carries exactly zero. -/
theorem C8_solution_count_invariant (ev : SubprocEvent) (timeout : ℚ) :
    ((run_minizinc ev timeout).status = Status.SAT →
        1 ≤ (run_minizinc ev timeout).solutions) ∧
      ((run_minizinc ev timeout).status = Status.UNSAT ∨
          (run_minizinc ev timeout).status = Status.TIMEOUT ∨
          (run_minizinc ev timeout).status = Status.ERROR →
        (run_minizinc ev timeout).solutions = 0) := by
  cases ev with
  | completed res elapsed =>
    have hscan : (scanStats res.stdout.toList elapsed).solutions = 0 :=
      foldl_processLine_solutions _ _
    have hpat : (("Q = " : String)).toList.isEmpty = false := by decide
    have hrm : run_minizinc (SubprocEvent.completed res elapsed) timeout
        = classify res elapsed timeout (scanStats res.stdout.toList elapsed) := rfl
    rw [hrm]
    unfold classify
    split_ifs with h1 h2 h3
    · have hpos : 0 < pyCount res.stdout "Q = " :=
        (pyCount_pos_iff res.stdout "Q = " hpat).mpr h1.2
      exact ⟨fun _ => hpos, fun hmem => by simp at hmem⟩
    · exact ⟨fun hsat => by simp at hsat, fun _ => hscan⟩
    · exact ⟨fun hsat => by simp at hsat, fun _ => hscan⟩
    · exact ⟨fun hsat => by simp at hsat, fun _ => hscan⟩
  | timeoutExpired =>
    exact ⟨fun hsat => by simp [run_minizinc] at hsat, fun _ => rfl⟩
  | exception =>
    exact ⟨fun hsat => by simp [run_minizinc] at hsat, fun _ => rfl⟩

/-- C8 witness: a Sat run with one marker has one solution; a Timeout
run by forced termination has zero. -/
theorem C8_solution_count_invariant_witness :
    ((run_minizinc (SubprocEvent.completed ⟨0, "Q = 1", ""⟩ 3) 300).status
          = Status.SAT ∧
        1 ≤ (run_minizinc (SubprocEvent.completed ⟨0, "Q = 1", ""⟩ 3) 300).solutions) ∧
      (run_minizinc SubprocEvent.timeoutExpired 300).solutions = 0 :=
  ⟨⟨by decide,
      (C8_solution_count_invariant
        (SubprocEvent.completed ⟨0, "Q = 1", ""⟩ 3) 300).1 (by decide)⟩,
    (C8_solution_count_invariant SubprocEvent.timeoutExpired 300).2
      (Or.inr (Or.inl rfl))⟩

/-! ## C10: exit code 0 shields a run from Timeout and Error -/

/-- C10: a completed run with exit code 0 is always classified Sat or
Unsat — never Timeout or Error — regardless of the measured elapsed time
and of any timeout marker in stderr, because the zero-exit branches come
first in the `if/elif` chain. -/
theorem C10_exit_zero_never_timeout (res : RunResult) (elapsed timeout : ℚ)
    (h0 : res.returncode = 0) :
    (run_minizinc (SubprocEvent.completed res elapsed) timeout).status
        = Status.SAT ∨
      (run_minizinc (SubprocEvent.completed res elapsed) timeout).status
        = Status.UNSAT := by
  cases hc : strContains res.stdout "Q = " with
  | true => exact Or.inl (by simp [run_minizinc, classify, h0, hc])
  | false => exact Or.inr (by simp [run_minizinc, classify, h0, hc])

/-- C10 witness: exit code 0 with stderr `TIMEOUT` and elapsed time 400
well beyond the 300-second timeout is still classified Unsat. -/
theorem C10_exit_zero_never_timeout_witness :
    ((⟨0, "", "TIMEOUT"⟩ : RunResult).returncode = 0) ∧
      ((run_minizinc (SubprocEvent.completed ⟨0, "", "TIMEOUT"⟩ 400) 300).status
          = Status.SAT ∨
        (run_minizinc (SubprocEvent.completed ⟨0, "", "TIMEOUT"⟩ 400) 300).status
          = Status.UNSAT) :=
  ⟨rfl, C10_exit_zero_never_timeout ⟨0, "", "TIMEOUT"⟩ 400 300 rfl⟩

/-! ## C4: best-per-size is the stable minimum -/

/-- The fold of `minStep` computes a minimum of the start value and all
folded elements. -/
lemma foldl_minStep_le (k : Row → ℚ) (l : List Row) :
    ∀ a : Row, k (l.foldl (minStep k) a) ≤ k a ∧
      ∀ x ∈ l, k (l.foldl (minStep k) a) ≤ k x := by
  induction l with
  | nil => intro a; exact ⟨le_refl _, by simp⟩
  | cons x t ih =>
    intro a
    rw [List.foldl_cons]
    rcases ih (minStep k a x) with ⟨h1, h2⟩
    by_cases hc : k x < k a
    · have hax : minStep k a x = x := if_pos hc
      rw [hax] at h1 h2 ⊢
      refine ⟨h1.trans hc.le, ?_⟩
      intro y hy
      rcases List.mem_cons.mp hy with h | h
      · subst h; exact h1
      · exact h2 y h
    · have hax : minStep k a x = a := if_neg hc
      rw [hax] at h1 h2 ⊢
      refine ⟨h1, ?_⟩
      intro y hy
      rcases List.mem_cons.mp hy with h | h
      · subst h; exact h1.trans (not_lt.mp hc)
      · exact h2 y h

/-- Stability of the fold of `minStep`: the result sits in the scanned
list after a prefix of strictly larger keys, so it is the first element
attaining the minimum. -/
lemma foldl_minStep_stable (k : Row → ℚ) (l : List Row) :
    ∀ a : Row, ∃ l1 l2, a :: l = l1 ++ (l.foldl (minStep k) a) :: l2 ∧
      ∀ x ∈ l1, k (l.foldl (minStep k) a) < k x := by
  induction l with
  | nil => intro a; exact ⟨[], [], rfl, by simp⟩
  | cons x t ih =>
    intro a
    rw [List.foldl_cons]
    by_cases hc : k x < k a
    · have hax : minStep k a x = x := if_pos hc
      rw [hax]
      rcases ih x with ⟨l1, l2, hdec, hlt⟩
      refine ⟨a :: l1, l2, ?_, ?_⟩
      · rw [List.cons_append, ← hdec]
      · intro y hy
        rcases List.mem_cons.mp hy with h | h
        · subst h
          exact lt_of_le_of_lt (foldl_minStep_le k t x).1 hc
        · exact hlt y h
    · have hax : minStep k a x = a := if_neg hc
      rw [hax]
      rcases ih a with ⟨l1, l2, hdec, hlt⟩
      cases l1 with
      | nil =>
        have hm : a = t.foldl (minStep k) a ∧ t = l2 := by
          simpa using hdec
        refine ⟨[], x :: t, ?_, by simp⟩
        rw [List.nil_append, ← hm.1]
      | cons b l1' =>
        rw [List.cons_append] at hdec
        have hinj := List.cons.inj hdec
        refine ⟨a :: x :: l1', l2, ?_, ?_⟩
        · rw [List.cons_append, List.cons_append, ← hinj.2]
        · intro y hy
          have hma : k (t.foldl (minStep k) a) < k a := by
            have : a ∈ b :: l1' := List.mem_cons.mpr (Or.inl hinj.1)
            exact hlt a this
          rcases List.mem_cons.mp hy with h | h
          · subst h; exact hma
          · rcases List.mem_cons.mp h with h' | h'
            · subst h'; exact lt_of_lt_of_le hma (not_lt.mp hc)
            · exact hlt y (List.mem_cons_of_mem _ h')

/-- C4: for each problem size, over the records with status SAT and a
present time cell, the selected best record is the stable minimum by
time — it belongs to the subset, its key is minimal, and every earlier
record of the subset has a strictly larger key — and an empty subset
selects nothing ("no solution found"); the plotted sizes are exactly the
distinct sizes present in the records. -/
theorem C4_best_per_size (rows : List Row) (n : Nat) :
    (n ∈ nPresent rows ↔ ∃ r ∈ rows, r.n = n) ∧
      (satTimeRows rows n = [] → bestForSize rows n = none) ∧
      ∀ b, bestForSize rows n = some b →
        b ∈ satTimeRows rows n ∧
          (∀ r ∈ satTimeRows rows n, timeKey b ≤ timeKey r) ∧
          ∃ l1 l2, satTimeRows rows n = l1 ++ b :: l2 ∧
            ∀ x ∈ l1, timeKey b < timeKey x := by
  refine ⟨?_, ?_, ?_⟩
  · rw [nPresent]
    constructor
    · intro h
      rcases List.mem_map.mp
          (List.mem_dedup.mp ((List.perm_insertionSort _ _).mem_iff.mp h)) with
        ⟨r, hr, hrn⟩
      exact ⟨r, hr, hrn⟩
    · rintro ⟨r, hr, hrn⟩
      exact (List.perm_insertionSort _ _).mem_iff.mpr
        (List.mem_dedup.mpr (List.mem_map.mpr ⟨r, hr, hrn⟩))
  · intro h
    rw [bestForSize, h]
    rfl
  · intro b hb
    rw [bestForSize] at hb
    cases hs : satTimeRows rows n with
    | nil => rw [hs] at hb; cases hb
    | cons a t =>
      rw [hs] at hb
      have hbval : t.foldl (minStep timeKey) a = b := by
        simpa [pyMinBy] using hb
      rcases foldl_minStep_stable timeKey t a with ⟨l1, l2, hdec, hlt⟩
      rcases foldl_minStep_le timeKey t a with ⟨hle1, hle2⟩
      rw [hbval] at hdec hlt hle1 hle2
      refine ⟨?_, ?_, ?_⟩
      · rw [hdec]
        exact List.mem_append_right _ (List.mem_cons_self _ _)
      · intro r hr
        rcases List.mem_cons.mp hr with h | h
        · subst h; exact hle1
        · exact hle2 r h
      · exact ⟨l1, l2, hdec, hlt⟩

/-- Concrete rows exercising the tie-break of the best-per-size
selection: two distinct records share the minimal time 1. -/
def rowA : Row := ⟨"01_naive.mzn", "A", 8, "SAT", some 3, none⟩

/-- Second concrete row (first minimum). -/
def rowB : Row := ⟨"02_global.mzn", "B", 8, "SAT", some 1, none⟩

/-- Third concrete row (later tie with `rowB`). -/
def rowC : Row := ⟨"03_ff_min.mzn", "C", 8, "SAT", some 1, none⟩

/-- Fourth concrete row. -/
def rowD : Row := ⟨"04_ff_max.mzn", "D", 8, "SAT", some 2, none⟩

/-- The concrete record list for the C4 witness. -/
def rows4 : List Row := [rowA, rowB, rowC, rowD]

/-- C4 witness: on the concrete records the selection picks `rowB`, the
first of the two records tied at the minimal time, and the theorem's
characterisation holds there. -/
theorem C4_best_per_size_witness :
    bestForSize rows4 8 = some rowB ∧
      (rowB ∈ satTimeRows rows4 8 ∧
        (∀ r ∈ satTimeRows rows4 8, timeKey rowB ≤ timeKey r) ∧
        ∃ l1 l2, satTimeRows rows4 8 = l1 ++ rowB :: l2 ∧
          ∀ x ∈ l1, timeKey rowB < timeKey x) := by
  have hEval : bestForSize rows4 8 = some rowB := by
    simp +decide only [bestForSize, satTimeRows, rows4, rowA, rowB, rowC, rowD,
      List.filter, pyMinBy, minStep, timeKey, List.foldl, Option.getD]
  exact ⟨hEval, (C4_best_per_size rows4 8).2.2 rowB hEval⟩

/-! ## C6: the statistics key matching -/

/-- Statistic keys of the scan. -/
inductive StatKey
  | nodes
  | failures
  | propagations
  | solveTime
deriving DecidableEq

/-- Modelled from the amended spec sentence: the three integer keys
match case-insensitively on any of their patterns, while the solve-time
key matches case-sensitively on the literal text `solveTime`. -/
def keyMatches (k : StatKey) (line : List Char) : Bool :=
  match k with
  | StatKey.nodes => containsB "nodes".toList (lowerL line)
  | StatKey.failures =>
    containsB "failures".toList (lowerL line) ||
      containsB "fails".toList (lowerL line)
  | StatKey.propagations =>
    containsB "propagations".toList (lowerL line) ||
      containsB "propagates".toList (lowerL line)
  | StatKey.solveTime => containsB "solveTime".toList line

/-- Modelled from the amended spec sentence: the keys are tried in the
fixed order nodes, failures, propagations, solve-time, and the first
match wins. -/
def firstKeyMatch (line : List Char) : Option StatKey :=
  [StatKey.nodes, StatKey.failures, StatKey.propagations,
    StatKey.solveTime].find? (fun k => keyMatches k line)

/-- Modelled from the amended spec sentence: on a match, the token
between the first and second `=` of the line is parsed — as an integer
for the three integer keys, as a float after removing `ms` for the
solve-time key — and the matched field is updated only when the parse
succeeds. -/
def applyKey (k : StatKey) (st : Stats) (line : List Char) : Stats :=
  match k with
  | StatKey.nodes =>
    match intTok line with
    | some v => { st with nodes := some v }
    | none => st
  | StatKey.failures =>
    match intTok line with
    | some v => { st with failures := some v }
    | none => st
  | StatKey.propagations =>
    match intTok line with
    | some v => { st with propagations := some v }
    | none => st
  | StatKey.solveTime =>
    match timeTok line with
    | some v => { st with time := some v }
    | none => st

/-- Table-driven line parser written from the amended spec sentence. -/
def specParseLine (st : Stats) (line : List Char) : Stats :=
  match firstKeyMatch line with
  | some k => applyKey k st line
  | none => st

/-- C6 counterexample: the solve-time key is not matched
case-insensitively against `solve_time` — the line `solve_time=99`
leaves the time field at the runner-measured 7 seconds, while the
same line spelled `solveTime=99` replaces it with 99 — so the claim
that every key of the set is matched case-insensitively is false. -/
theorem C6_counterexample :
    (run_minizinc (SubprocEvent.completed ⟨0, "solve_time=99", ""⟩ 7) 300).time
        = some 7 ∧
      (run_minizinc (SubprocEvent.completed ⟨0, "solveTime=99", ""⟩ 7) 300).time
        = some 99 := by
  constructor
  · simp +decide [run_minizinc, classify, scanStats, processLine, initStats,
      splitOnChar, strContains, containsB, prefixOfB, lowerL, lowerChar]
  · simp +decide [run_minizinc, classify, scanStats, processLine, initStats,
      splitOnChar, timeTok, strContains, containsB, prefixOfB, lowerL, lowerChar,
      pyReplaceEmpty, removeFrom, pyFloat, pyStrip, pyFloatMag, expVal, qVal,
      digitsVal, isDigitC, isPyWS, List.takeWhile, List.dropWhile]

/-- C6 amended: the `if/elif` scan of `run_minizinc` implements exactly
the table-driven parser over the key set, with nodes, failures|fails and
propagations|propagates matched case-insensitively, solve-time matched
case-sensitively as the literal `solveTime`, first match in that order
winning, the token between the first and second `=` parsed per key
(with `ms` stripped only for solve-time), and a failed parse leaving the
field untouched. -/
theorem C6_amended (st : Stats) (line : List Char) :
    processLine st line = specParseLine st line := by
  cases c1 : containsB ['n', 'o', 'd', 'e', 's'] (lowerL line) with
  | true =>
    simp [processLine, specParseLine, firstKeyMatch, keyMatches, List.find?,
      applyKey, c1]
  | false =>
    cases c2a : containsB ['f', 'a', 'i', 'l', 'u', 'r', 'e', 's'] (lowerL line) with
    | true =>
      simp [processLine, specParseLine, firstKeyMatch, keyMatches, List.find?,
        applyKey, c1, c2a]
    | false =>
      cases c2b : containsB ['f', 'a', 'i', 'l', 's'] (lowerL line) with
      | true =>
        simp [processLine, specParseLine, firstKeyMatch, keyMatches, List.find?,
          applyKey, c1, c2a, c2b]
      | false =>
        cases c3a : containsB
            ['p', 'r', 'o', 'p', 'a', 'g', 'a', 't', 'i', 'o', 'n', 's']
            (lowerL line) with
        | true =>
          simp [processLine, specParseLine, firstKeyMatch, keyMatches,
            List.find?, applyKey, c1, c2a, c2b, c3a]
        | false =>
          cases c3b : containsB
              ['p', 'r', 'o', 'p', 'a', 'g', 'a', 't', 'e', 's'] (lowerL line) with
          | true =>
            simp [processLine, specParseLine, firstKeyMatch, keyMatches,
              List.find?, applyKey, c1, c2a, c2b, c3a, c3b]
          | false =>
            cases c4 : containsB
                ['s', 'o', 'l', 'v', 'e', 'T', 'i', 'm', 'e'] line with
            | true =>
              simp [processLine, specParseLine, firstKeyMatch, keyMatches,
                List.find?, applyKey, c1, c2a, c2b, c3a, c3b, c4]
            | false =>
              simp [processLine, specParseLine, firstKeyMatch, keyMatches,
                List.find?, applyKey, c1, c2a, c2b, c3a, c3b, c4]

/-! ## C9: missing input files skip single runs, the batch continues -/

/-- Records contributed by one catalog entry: none when its model file
is missing, otherwise one record per existing data file. -/
lemma specsForModel (md : String × String) (ns : List Nat)
    (me : String → Bool) (de : Nat → Bool) (runner : String → Nat → Stats) :
    ((ns.map (fun n => (md, n))).filter (fun p => me p.1.1 && de p.2)).map
        (fun p => (⟨p.1.1, p.1.2, p.2, runner p.1.1 p.2⟩ : Record))
      = if me md.1 then
          (ns.filter de).map (fun n => (⟨md.1, md.2, n, runner md.1 n⟩ : Record))
        else [] := by
  induction ns with
  | nil => cases hm : me md.1 <;> simp
  | cons n t ih =>
    cases hm : me md.1 with
    | true =>
      simp only [hm, if_true] at ih ⊢
      cases hd : de n <;> simp [List.filter_cons, hm, hd, ih]
    | false =>
      simp [hm] at ih
      simp [List.filter_cons, hm, ih]

/-- The rows `main` writes are exactly the run specs whose model and
data files both exist, in batch order, one record each. -/
lemma mainRecords_eq (ms : List (String × String)) (ns : List Nat)
    (me : String → Bool) (de : Nat → Bool) (runner : String → Nat → Stats) :
    mainRecords ms ns me de runner
      = ((allSpecs ms ns).filter (fun p => me p.1.1 && de p.2)).map
          (fun p => (⟨p.1.1, p.1.2, p.2, runner p.1.1 p.2⟩ : Record)) := by
  induction ms with
  | nil => rfl
  | cons md t ih =>
    unfold mainRecords allSpecs
    unfold mainRecords allSpecs at ih
    rw [List.flatMap_cons, List.filter_append, List.map_append]
    cases hm : me md.1 <;>
      simp [List.filter_cons, hm, List.flatMap_cons,
        specsForModel md ns me de runner, ih]

/-- Counting helper: kept plus dropped elements make the whole list. -/
lemma filter_length_add_countP_not {α : Type} (l : List α) (p : α → Bool) :
    (l.filter p).length + l.countP (fun x => !(p x)) = l.length := by
  induction l with
  | nil => rfl
  | cons a t ih =>
    cases hp : p a <;>
      simp [List.filter_cons, List.countP_cons, hp, ← ih] <;> omega

/-- C9: with the configured catalog and size list, for any pattern of
missing model/data files the batch writes exactly the records of the
specs whose two input files exist — each skipped spec contributes no
record, no failure is raised (the function is total), and the number of
persisted records plus the number of skipped specs equals the total
number of run specs. -/
theorem C9_missing_inputs_skip (me : String → Bool) (de : Nat → Bool)
    (runner : String → Nat → Stats) :
    mainRecords MODELS N_VALUES me de runner
        = ((allSpecs MODELS N_VALUES).filter (fun p => me p.1.1 && de p.2)).map
            (fun p => (⟨p.1.1, p.1.2, p.2, runner p.1.1 p.2⟩ : Record)) ∧
      (mainRecords MODELS N_VALUES me de runner).length
          + skippedCount MODELS N_VALUES me de
        = (allSpecs MODELS N_VALUES).length := by
  refine ⟨mainRecords_eq MODELS N_VALUES me de runner, ?_⟩
  rw [mainRecords_eq MODELS N_VALUES me de runner, List.length_map]
  exact filter_length_add_countP_not (allSpecs MODELS N_VALUES)
    (fun p => me p.1.1 && de p.2)

/-! ## C5: per-model summary machinery -/

/-- Appending one row to the reference aggregation. -/
lemma aggFor_append_singleton (d : String) (rows : List Row) (r : Row) :
    aggFor d (rows ++ [r])
      = if r.description = d then updAgg r (aggFor d rows) else aggFor d rows := by
  unfold aggFor
  rw [List.foldl_append]
  rfl

/-- A description with no matching row aggregates to the fresh
accumulator. -/
lemma foldl_agg_no_match (d : String) (rows : List Row) :
    ∀ a : MAgg, (∀ r ∈ rows, r.description ≠ d) →
      rows.foldl (fun a r => if r.description = d then updAgg r a else a) a = a := by
  induction rows with
  | nil => intro a _; rfl
  | cons r t ih =>
    intro a h
    rw [List.foldl_cons, if_neg (h r (List.mem_cons_self _ _))]
    exact ih a (fun x hx => h x (List.mem_cons_of_mem _ hx))

/-- No matching row means the reference aggregation is fresh. -/
lemma aggFor_of_no_match (d : String) (rows : List Row)
    (h : ∀ r ∈ rows, r.description ≠ d) : aggFor d rows = emptyAgg :=
  foldl_agg_no_match d rows emptyAgg h

/-- The accumulator update adds one to `solved` exactly on SAT rows. -/
lemma updAgg_solved (r : Row) (a : MAgg) :
    (updAgg r a).solved = a.solved + (if r.status == "SAT" then 1 else 0) := by
  unfold updAgg
  split_ifs with h
  · cases r.time <;> cases r.nodes <;> simp
  · simp

/-- The accumulator update always adds one to `total`. -/
lemma updAgg_total (r : Row) (a : MAgg) :
    (updAgg r a).total = a.total + 1 := by
  unfold updAgg
  split_ifs with h
  · cases r.time <;> cases r.nodes <;> rfl
  · rfl

/-- The `solved` counter of the reference aggregation counts the SAT
rows of the description. -/
lemma foldl_agg_solved (d : String) (rows : List Row) :
    ∀ a : MAgg,
      (rows.foldl (fun a r => if r.description = d then updAgg r a else a) a).solved
        = a.solved + rows.countP (fun r => r.description == d && r.status == "SAT") := by
  induction rows with
  | nil => intro a; simp
  | cons r t ih =>
    intro a
    by_cases hd : r.description = d
    · have hb : (r.description == d) = true := by simp [hd]
      cases hs : r.status == "SAT" <;>
        (simp [List.foldl_cons, List.countP_cons, hd, hb, hs, ih, updAgg_solved];
          try omega)
    · have hb : (r.description == d) = false := by simp [hd]
      simp [List.foldl_cons, List.countP_cons, hd, hb, ih]

/-- The `total` counter of the reference aggregation counts all rows of
the description. -/
lemma foldl_agg_total (d : String) (rows : List Row) :
    ∀ a : MAgg,
      (rows.foldl (fun a r => if r.description = d then updAgg r a else a) a).total
        = a.total + rows.countP (fun r => r.description == d) := by
  induction rows with
  | nil => intro a; simp
  | cons r t ih =>
    intro a
    by_cases hd : r.description = d
    · have hb : (r.description == d) = true := by simp [hd]
      simp [List.foldl_cons, List.countP_cons, hd, hb, ih, updAgg_total]
      omega
    · have hb : (r.description == d) = false := by simp [hd]
      simp [List.foldl_cons, List.countP_cons, hd, hb, ih]

/-- Solved count of `aggFor`. -/
lemma aggFor_solved (d : String) (rows : List Row) :
    (aggFor d rows).solved
      = rows.countP (fun r => r.description == d && r.status == "SAT") := by
  unfold aggFor
  rw [foldl_agg_solved]
  simp [emptyAgg]

/-- Total count of `aggFor`. -/
lemma aggFor_total (d : String) (rows : List Row) :
    (aggFor d rows).total = rows.countP (fun r => r.description == d) := by
  unfold aggFor
  rw [foldl_agg_total]
  simp [emptyAgg]

/-- The dict update preserves first components. -/
lemma updMD_fst (r : Row) (q : String × MAgg) :
    ((fun p => if p.1 = r.description then (p.1, updAgg r p.2) else p) q).1
      = q.1 := by
  by_cases h : q.1 = r.description <;> simp [h]

/-- Invariant of the `models_data` fold: every dict entry is the
reference aggregation of the rows folded so far, and the dict keys are
exactly the descriptions seen so far. -/
lemma modelsData_spec (rows : List Row) :
    ∀ (seen : List Row) (acc : List (String × MAgg)),
      (∀ p ∈ acc, p.2 = aggFor p.1 seen) →
      (∀ d, (∃ p ∈ acc, p.1 = d) ↔ ∃ r ∈ seen, r.description = d) →
      (∀ p ∈ rows.foldl updMD acc, p.2 = aggFor p.1 (seen ++ rows)) ∧
        ∀ d, (∃ p ∈ rows.foldl updMD acc, p.1 = d) ↔
          ∃ r ∈ seen ++ rows, r.description = d := by
  induction rows with
  | nil =>
    intro seen acc h1 h2
    rw [List.foldl_nil, List.append_nil]
    exact ⟨h1, h2⟩
  | cons r t ih =>
    intro seen acc h1 h2
    have step1 : ∀ p ∈ updMD acc r, p.2 = aggFor p.1 (seen ++ [r]) := by
      intro p hp
      unfold updMD at hp
      by_cases hex : ∃ q ∈ acc, q.1 = r.description
      · rw [if_pos hex] at hp
        rcases List.mem_map.mp hp with ⟨q, hq, hpq⟩
        by_cases hqd : q.1 = r.description
        · rw [if_pos hqd] at hpq
          rw [← hpq]
          show updAgg r q.2 = aggFor q.1 (seen ++ [r])
          rw [aggFor_append_singleton, if_pos hqd.symm, h1 q hq]
        · rw [if_neg hqd] at hpq
          rw [← hpq]
          rw [aggFor_append_singleton, if_neg (fun h => hqd h.symm), h1 q hq]
      · rw [if_neg hex] at hp
        rcases List.mem_append.mp hp with hpacc | hpnew
        · have hpd : p.1 ≠ r.description := fun h => hex ⟨p, hpacc, h⟩
          rw [aggFor_append_singleton, if_neg (fun h => hpd h.symm)]
          exact h1 p hpacc
        · have hpe : p = (r.description, updAgg r emptyAgg) := by
            simpa using hpnew
          subst hpe
          show updAgg r emptyAgg = aggFor r.description (seen ++ [r])
          rw [aggFor_append_singleton, if_pos rfl]
          have hnone : ∀ r' ∈ seen, r'.description ≠ r.description := by
            intro r' hr' hd
            exact hex ((h2 r.description).mpr ⟨r', hr', hd⟩)
          rw [aggFor_of_no_match _ _ hnone]
    have step2 : ∀ d, (∃ p ∈ updMD acc r, p.1 = d) ↔
        ∃ r' ∈ seen ++ [r], r'.description = d := by
      intro d
      unfold updMD
      by_cases hex : ∃ q ∈ acc, q.1 = r.description
      · rw [if_pos hex]
        constructor
        · rintro ⟨p, hp, hpd⟩
          rcases List.mem_map.mp hp with ⟨q, hq, hpq⟩
          have hq1 : q.1 = d := by
            rw [← hpd, ← hpq, updMD_fst]
          rcases (h2 d).mp ⟨q, hq, hq1⟩ with ⟨r', hr', hrd⟩
          exact ⟨r', List.mem_append_left _ hr', hrd⟩
        · rintro ⟨r', hr', hrd⟩
          rcases List.mem_append.mp hr' with hseen | hhere
          · rcases (h2 d).mpr ⟨r', hseen, hrd⟩ with ⟨q, hq, hq1⟩
            refine ⟨(fun p => if p.1 = r.description then (p.1, updAgg r p.2) else p) q,
              List.mem_map.mpr ⟨q, hq, rfl⟩, ?_⟩
            rw [updMD_fst]
            exact hq1
          · have heq : r' = r := by simpa using hhere
            rw [heq] at hrd
            rcases hex with ⟨q, hq, hq1⟩
            refine ⟨(fun p => if p.1 = r.description then (p.1, updAgg r p.2) else p) q,
              List.mem_map.mpr ⟨q, hq, rfl⟩, ?_⟩
            rw [updMD_fst]
            rw [hq1, hrd]
      · rw [if_neg hex]
        constructor
        · rintro ⟨p, hp, hpd⟩
          rcases List.mem_append.mp hp with hpacc | hpnew
          · rcases (h2 d).mp ⟨p, hpacc, hpd⟩ with ⟨r', hr', hrd⟩
            exact ⟨r', List.mem_append_left _ hr', hrd⟩
          · have hpe : p = (r.description, updAgg r emptyAgg) := by
              simpa using hpnew
            subst hpe
            exact ⟨r, List.mem_append_right _ (List.mem_cons_self _ _), hpd⟩
        · rintro ⟨r', hr', hrd⟩
          rcases List.mem_append.mp hr' with hseen | hhere
          · rcases (h2 d).mpr ⟨r', hseen, hrd⟩ with ⟨q, hq, hq1⟩
            exact ⟨q, List.mem_append_left _ hq, hq1⟩
          · have heq : r' = r := by simpa using hhere
            rw [heq] at hrd
            exact ⟨(r.description, updAgg r emptyAgg),
              List.mem_append_right _ (List.mem_cons_self _ _), hrd⟩
    have hmain := ih (seen ++ [r]) (updMD acc r) step1 step2
    constructor
    · intro p hp
      have := hmain.1 p (by simpa using hp)
      simpa [List.append_assoc] using this
    · intro d
      have := hmain.2 d
      simpa [List.append_assoc] using this

/-- Every `models_data` entry is the reference aggregation of its key,
and the keys are exactly the descriptions present in the rows. -/
lemma modelsData_correct (rows : List Row) :
    (∀ p ∈ modelsData rows, p.2 = aggFor p.1 rows) ∧
      ∀ d, (∃ p ∈ modelsData rows, p.1 = d) ↔ ∃ r ∈ rows, r.description = d := by
  have h := modelsData_spec rows [] [] (by simp) (by simp)
  simpa [modelsData] using h

/-- Concrete record list for C5: the first catalog model has one
persisted record, an ERROR, and no Sat record. -/
def rows5 : List Row :=
  [⟨"01_naive.mzn", "Naïf (contraintes binaires)", 8, "ERROR", none, none⟩]

/-- C5 counterexample: with one ERROR record for the first catalog
model, the per-model summary of `generate_summary` (`benchmark.py`) is
empty — the model is omitted entirely instead of being reported with a
0% success rate, so the claim that a model with records is never omitted
from the summary output is false. -/
theorem C5_counterexample :
    (∃ r ∈ rows5, r.model = "01_naive.mzn") ∧ benchSummary rows5 = [] := by
  constructor
  · exact ⟨rows5.head (by decide), by decide, by decide⟩
  · decide

/-- C5 amended: in the summary table of `generate_summary_table`
(`visualize.py`) every model with at least one record appears, its
solved and total counters count exactly its Sat records and all its
records, and its displayed success rate is `100·solved/total` — hence a
model that solved nothing still appears, at a 0% rate; by contrast the
console summary of `generate_summary` (`benchmark.py`) lists a model
only when it has at least one Sat record with a time, so models that
solved nothing are omitted there. -/
theorem C5_amended (rows : List Row) (desc : String) :
    (desc ∈ (summaryTable rows).map SummaryEntry.desc ↔
        ∃ r ∈ rows, r.description = desc) ∧
      (∀ e ∈ summaryTable rows,
        e.solved = rows.countP
            (fun r => r.description == e.desc && r.status == "SAT") ∧
          e.total = rows.countP (fun r => r.description == e.desc) ∧
          e.rate = 100 * (e.solved : ℚ) / (e.total : ℚ)) ∧
      ∀ q ∈ benchSummary rows, ∃ mf, (mf, q.1) ∈ MODELS ∧
        ∃ r ∈ rows, r.model = mf ∧ r.status = "SAT" ∧ r.time.isSome = true := by
  have hmd := modelsData_correct rows
  refine ⟨?_, ?_, ?_⟩
  · have h1 : (summaryTable rows).map SummaryEntry.desc
        = (List.insertionSort tableLe (modelsData rows)).map (fun p => p.1) := by
      unfold summaryTable
      rw [List.map_map]
      rfl
    rw [h1]
    constructor
    · intro h
      rcases List.mem_map.mp h with ⟨p, hp, hpd⟩
      have hp' : p ∈ modelsData rows :=
        (List.perm_insertionSort _ _).mem_iff.mp hp
      exact (hmd.2 desc).mp ⟨p, hp', hpd⟩
    · intro h
      rcases (hmd.2 desc).mpr h with ⟨p, hp, hpd⟩
      exact List.mem_map.mpr
        ⟨p, (List.perm_insertionSort _ _).mem_iff.mpr hp, hpd⟩
  · intro e he
    rcases List.mem_map.mp he with ⟨p, hp, hpe⟩
    have hp' : p ∈ modelsData rows :=
      (List.perm_insertionSort _ _).mem_iff.mp hp
    have hagg : p.2 = aggFor p.1 rows := hmd.1 p hp'
    rw [← hpe]
    refine ⟨?_, ?_, rfl⟩
    · show p.2.solved = rows.countP
        (fun r => r.description == (mkEntry p).desc && r.status == "SAT")
      rw [hagg, aggFor_solved]
      rfl
    · show p.2.total = rows.countP (fun r => r.description == (mkEntry p).desc)
      rw [hagg, aggFor_total]
      rfl
  · intro q hq
    have hq' : q ∈ benchModelStats rows :=
      (List.perm_insertionSort _ _).mem_iff.mp hq
    rcases List.mem_filterMap.mp hq' with ⟨md, hin, hsome⟩
    simp only [] at hsome
    by_cases hempty : (rows.filter
        (fun r => r.model == md.1 && r.status == "SAT" && r.time.isSome)).isEmpty
    · rw [if_pos hempty] at hsome
      cases hsome
    · rw [if_neg hempty] at hsome
      have hq1 : md.2 = q.1 := congrArg Prod.fst (Option.some.inj hsome)
      have hne : rows.filter
          (fun r => r.model == md.1 && r.status == "SAT" && r.time.isSome) ≠ [] := by
        intro h
        rw [h] at hempty
        exact hempty rfl
      rcases List.exists_mem_of_ne_nil _ hne with ⟨r, hr⟩
      have hr' := List.mem_filter.mp hr
      have hprop : r.model = md.1 ∧ r.status = "SAT" ∧ r.time.isSome = true := by
        have := hr'.2
        simp only [Bool.and_eq_true, beq_iff_eq] at this
        exact ⟨this.1.1, this.1.2, this.2⟩
      refine ⟨md.1, ?_, r, hr'.1, hprop⟩
      have heqmd : (md.1, q.1) = md := by rw [← hq1]
      exact heqmd ▸ hin

/-- C5 amended, witness: on the concrete one-record list, the model's
description does appear in the visualize summary table. -/
theorem C5_amended_witness :
    (∃ r ∈ rows5, r.description = "Naïf (contraintes binaires)") ∧
      "Naïf (contraintes binaires)"
        ∈ (summaryTable rows5).map SummaryEntry.desc :=
  ⟨⟨rows5.head (by decide), by decide, by decide⟩,
    (C5_amended rows5 "Naïf (contraintes binaires)").1.mpr
      ⟨rows5.head (by decide), by decide, by decide⟩⟩

end NQ
